import Mathlib

/-!
Verification of the coverage-map normalization, diffing and ranking logic of
the policy-pulse front end.  The relevant source functions are shallowly
embedded over a model of JSON/JavaScript values (`JValue`): the page-level
normalizers (`PatientPolicies.normalizeCoverageMap`,
`HospitalUpdatePolicy.normalizeCoverageMap`), the loose interpreter of the
treatments page (`Treatments.interpretCoverage`), the differ
(`RecentChanges.diffCoverageMaps`) and the ranking helper
(`HospitalTreatments.bestPolicyForIllness`).
-/

/-- Model of a JavaScript/JSON value as it flows through the front end.
Numbers are modelled as exact rationals (the values exercised by the
code are small decimals; no NaN/Infinity payloads occur in the wire data).
An object is a list of fields in insertion order, a faithful model of a
JS object literal. -/
inductive JValue where
  | jnull
  | jundefined
  | jbool (b : Bool)
  | jnum (n : Rat)
  | jstr (s : String)
  | jarr (items : List JValue)
  | jobj (fields : List (String × JValue))

namespace JValue

mutual

/-- Boolean structural equality on `JValue`. -/
def beqJ : JValue → JValue → Bool
  | .jnull, .jnull => true
  | .jundefined, .jundefined => true
  | .jbool a, .jbool b => a == b
  | .jnum a, .jnum b => a == b
  | .jstr a, .jstr b => a == b
  | .jarr a, .jarr b => beqL a b
  | .jobj a, .jobj b => beqF a b
  | _, _ => false

/-- Boolean equality on lists of values. -/
def beqL : List JValue → List JValue → Bool
  | [], [] => true
  | a :: as, b :: bs => beqJ a b && beqL as bs
  | _, _ => false

/-- Boolean equality on field lists. -/
def beqF : List (String × JValue) → List (String × JValue) → Bool
  | [], [] => true
  | (k, v) :: as, (l, w) :: bs => k == l && beqJ v w && beqF as bs
  | _, _ => false

end

mutual

def beqJ_iff : ∀ (a b : JValue), beqJ a b = true ↔ a = b
  | .jnull, b => by cases b <;> simp [beqJ]
  | .jundefined, b => by cases b <;> simp [beqJ]
  | .jbool x, b => by cases b <;> simp [beqJ]
  | .jnum x, b => by cases b <;> simp [beqJ]
  | .jstr x, b => by cases b <;> simp [beqJ]
  | .jarr xs, b => by cases b <;> simp [beqJ, beqL_iff xs]
  | .jobj xs, b => by cases b <;> simp [beqJ, beqF_iff xs]

def beqL_iff : ∀ (a b : List JValue), beqL a b = true ↔ a = b
  | [], b => by cases b <;> simp [beqL]
  | x :: xs, b => by
      cases b <;> simp [beqL, beqJ_iff x, beqL_iff xs]

def beqF_iff : ∀ (a b : List (String × JValue)), beqF a b = true ↔ a = b
  | [], b => by cases b <;> simp [beqF]
  | (k, v) :: xs, b => by
      cases b with
      | nil => simp [beqF]
      | cons y ys =>
        cases y with
        | mk l w => simp [beqF, beqJ_iff v, beqF_iff xs, and_assoc, Prod.ext_iff]

end

instance : DecidableEq JValue := fun a b =>
  decidable_of_iff (beqJ a b = true) (beqJ_iff a b)

end JValue

namespace JValue

/-- JavaScript truthiness of a value (`if (v)`). -/
def truthy : JValue → Bool
  | .jnull => false
  | .jundefined => false
  | .jbool b => b
  | .jnum n => n != 0
  | .jstr s => s != ""
  | .jarr _ => true
  | .jobj _ => true

/-- Whether `typeof v === "object"` holds (arrays and `null` included). -/
def isObjectType : JValue → Bool
  | .jnull => true
  | .jarr _ => true
  | .jobj _ => true
  | _ => false

/-- The own enumerable entries of a value, in key insertion order:
`Object.entries`.  Array elements are enumerated under their index keys. -/
def jsEntries : JValue → List (String × JValue)
  | .jobj fields => fields
  | .jarr items => (items.enum.map fun p => (toString p.1, p.2))
  | _ => []

/-- The own enumerable keys of a value: `Object.keys`. -/
def jsKeys (v : JValue) : List String := (jsEntries v).map Prod.fst

/-- Property access `v[k]`, yielding `undefined` when the key is absent. -/
def jsGet (v : JValue) (k : String) : JValue :=
  match (jsEntries v).find? (fun p => p.1 = k) with
  | some p => p.2
  | none => .jundefined

/-- The `in` operator: whether the key is present on the value. -/
def hasKey (v : JValue) (k : String) : Bool :=
  (jsKeys v).contains k

end JValue

/-- Assignment `out[k] = v` on a record modelled as an ordered field list:
an existing key keeps its position and is overwritten, a fresh key is
appended at the end (JS object key-order semantics). -/
def recordSet {α : Type} (m : List (String × α)) (k : String) (v : α) :
    List (String × α) :=
  if m.any (fun p => p.1 == k) then
    m.map (fun p => if p.1 == k then (k, v) else p)
  else m ++ [(k, v)]

/-- First-match lookup in a record, `none` when the key is absent. -/
def recordGet {α : Type} (m : List (String × α)) (k : String) : Option α :=
  match m.find? (fun p => p.1 == k) with
  | some p => some p.2
  | none => none

/-- Clamp into the unit percent range: `Math.max(0, Math.min(100, q))`. -/
def clamp100 (q : Rat) : Rat := max 0 (min 100 q)

/-- JS `String.prototype.trim`: strip leading and trailing whitespace. -/
def jsTrim (s : String) : String :=
  ⟨((s.data.dropWhile Char.isWhitespace).reverse.dropWhile Char.isWhitespace).reverse⟩

/-- JS `String.prototype.toLowerCase` (ASCII case folding). -/
def jsToLower (s : String) : String := ⟨s.data.map Char.toLower⟩

namespace JValue

/-- JavaScript number coercion `Number(v)`, with `none` standing for `NaN`.
String parsing is modelled for plain decimal literals (the only numeric
string shapes the backend emits); other strings coerce to `NaN`. -/
def jsToNumber : JValue → Option Rat
  | .jnull => some 0
  | .jundefined => none
  | .jbool b => some (if b then 1 else 0)
  | .jnum n => some n
  | .jstr s => parseDecimal (jsTrim s)
  | .jarr _ => none
  | .jobj _ => none
where
  /-- Natural-number value of a digit list. -/
  digitsNat (cs : List Char) : Nat :=
    cs.foldl (fun a c => a * 10 + (c.toNat - 48)) 0
  /-- Rational value of an integer part and a fraction part. -/
  decimalVal (intPart fracPart : List Char) : Rat :=
    let den : Nat := Nat.pow 10 fracPart.length
    let num : Nat := digitsNat intPart * den + digitsNat fracPart
    mkRat (Int.ofNat num) den
  /-- Parse `digits`, `digits.digits` or `.digits`. -/
  parseUnsigned (cs : List Char) : Option Rat :=
    let (intPart, rest) := cs.span Char.isDigit
    match rest with
    | [] => if intPart = [] then none else some (decimalVal intPart [])
    | '.' :: fracRest =>
        let (fracPart, tail) := fracRest.span Char.isDigit
        if tail = [] ∧ (intPart ≠ [] ∨ fracPart ≠ []) then
          some (decimalVal intPart fracPart)
        else none
    | _ => none
  /-- Parse an optionally signed decimal literal; empty string is `0`. -/
  parseDecimal (t : String) : Option Rat :=
    if t = "" then some 0
    else
      let (isNeg, body) : Bool × List Char :=
        match t.data with
        | '-' :: rest => (true, rest)
        | '+' :: rest => (false, rest)
        | cs => (false, cs)
      match parseUnsigned body with
      | some q => some (if isNeg then -q else q)
      | none => none

/-- The JS idiom `x || 0` applied to a number coercion: `NaN` and `0`
both fall back to `0`. -/
def numOr0 : Option Rat → Rat
  | none => 0
  | some q => if q = 0 then 0 else q

end JValue

namespace JValue

mutual

/-- Serialization normal form of a value: two values have equal
`JSON.stringify` output exactly when their normal forms are equal.
Object fields whose value is `undefined` are omitted by `stringify`;
`undefined` array elements serialize as `null`; field order is kept. -/
def jsonNF : JValue → JValue
  | .jobj fields => .jobj (nfFields fields)
  | .jarr items => .jarr (nfItems items)
  | v => v

/-- Normal form of an object field list (drops `undefined` fields). -/
def nfFields : List (String × JValue) → List (String × JValue)
  | [] => []
  | (k, v) :: rest =>
    match v with
    | .jundefined => nfFields rest
    | w => (k, jsonNF w) :: nfFields rest

/-- Normal form of an array element list (`undefined` becomes `null`). -/
def nfItems : List JValue → List JValue
  | [] => []
  | v :: rest =>
    match v with
    | .jundefined => .jnull :: nfItems rest
    | w => jsonNF w :: nfItems rest

end

/-- Decimal rendering of a JS number; non-integral rationals are shown in
fraction form (an approximation of JS float printing that no keyword
comparison can confuse with `"covered"`, `"not_covered"` or `"percent"`). -/
def jsNumToString (q : Rat) : String :=
  let mag := toString q.num.natAbs
  let signed := if q.num < 0 then "-" ++ mag else mag
  if q.den = 1 then signed else signed ++ "/" ++ toString q.den

mutual

/-- JavaScript string coercion `String(v)`. -/
def jsToString : JValue → String
  | .jnull => "null"
  | .jundefined => "undefined"
  | .jbool b => if b then "true" else "false"
  | .jnum n => jsNumToString n
  | .jstr s => s
  | .jarr items => joinItems items
  | .jobj _ => "[object Object]"

/-- Comma join of array elements as `Array.prototype.toString` does,
rendering `null` and `undefined` elements as the empty string. -/
def joinItems : List JValue → String
  | [] => ""
  | v :: rest =>
    let s :=
      match v with
      | .jnull => ""
      | .jundefined => ""
      | w => jsToString w
    match rest with
    | [] => s
    | _ => s ++ "," ++ joinItems rest

end

end JValue

/-!
Embedding of `src/routes/patient/policies/PatientPoliciesPage.tsx`,
`normalizeCoverageMap`: converts a mixed `coverage_map` wire value into a
record of coverage-entry objects.  The output record is a `JValue` field
list because the array branch stores the raw item value unchanged
(`out[key] = val as CoverageEntry`).
-/
namespace PatientPolicies

open JValue

/-- One step of the array branch: a single array item. -/
def numEntryJson (n : Rat) : JValue :=
  if n ≤ 0 then .jobj [("type", .jstr "not_covered")]
  else .jobj [("type", .jstr "percent"), ("percent", .jnum (clamp100 n))]

/-- The entry object written by the object branch for an object-typed raw
value, or `none` when the value is dropped (`val` falsy, not an object, or
its `type` not one of the three known tags). -/
def objEntryJson (v : JValue) : Option JValue :=
  if truthy v ∧ isObjectType v then
    match jsGet v "type" with
    | .jstr t =>
      if t = "covered" then
        some (.jobj [("type", .jstr "covered"), ("copay", jsGet v "copay")])
      else if t = "not_covered" then
        some (.jobj [("type", .jstr "not_covered")])
      else if t = "percent" then
        some (.jobj [("type", .jstr "percent"),
          ("percent", .jnum (numOr0 (jsToNumber (jsGet v "percent")))),
          ("copay", jsGet v "copay")])
      else none
    | _ => none
  else none

/-- One step of the array branch: a single array item.  The item must be a
truthy object; its first key names the entry, and a raw object value that
carries a `type` property is stored unchanged (`out[key] = val`). -/
def arrayStep (out : List (String × JValue)) (item : JValue) :
    List (String × JValue) :=
  if truthy item ∧ isObjectType item then
    match (jsKeys item).head? with
    | none => out
    | some key =>
      if key = "" then out
      else
        match jsGet item key with
        | .jnum n => recordSet out key (numEntryJson n)
        | v =>
          if truthy v ∧ isObjectType v ∧ hasKey v "type" then recordSet out key v
          else out
  else out

/-- One step of the object branch: a single `Object.entries` pair. -/
def objectStep (out : List (String × JValue)) (kv : String × JValue) :
    List (String × JValue) :=
  match kv.2 with
  | .jnum n => recordSet out kv.1 (numEntryJson n)
  | v =>
    match objEntryJson v with
    | some e => recordSet out kv.1 e
    | none => out

/-- The normalizer itself: `null`/`undefined` and other falsy input give the
empty record, an array is folded item by item, an object is folded entry by
entry, any other value gives the empty record. -/
def normalizeCoverageMap (raw : JValue) : List (String × JValue) :=
  if ¬ truthy raw then []
  else
    match raw with
    | .jarr items => items.foldl arrayStep []
    | .jobj _ => (jsEntries raw).foldl objectStep []
    | _ => []

end PatientPolicies

/-!
Embedding of the treatments page (`src/unnamed/part_008`): the loose
coverage interpreter `interpretCoverage` and its helper
`parsePercentString`.
-/
namespace Treatments

open JValue

/-- A coverage entry as constructed by `interpretCoverage` (the page-local
`CoverageEntry` union).  The `copay` payload is kept as a raw `JValue`
because the code copies `val.copay` through unchecked; an absent copay
field is modelled as `jundefined`. -/
inductive PEntry where
  | covered (copay : JValue)
  | not_covered
  | percent (percent : Rat) (copay : JValue)
  deriving DecidableEq

/-- Match of the regular expression pattern accepted by
`parsePercentString`: digits, an optional fraction, optional whitespace
and an optional percent sign, anchored at both ends. -/
def matchPercentPattern (cs : List Char) : Option Rat :=
  let (intPart, rest0) := cs.span Char.isDigit
  if intPart = [] then none
  else
    let (value, rest) : Rat × List Char :=
      match rest0 with
      | '.' :: fr =>
        let (fracPart, tail) := fr.span Char.isDigit
        if fracPart = [] then (jsToNumber.decimalVal intPart [], rest0)
        else (jsToNumber.decimalVal intPart fracPart, tail)
      | _ => (jsToNumber.decimalVal intPart [], rest0)
    let restWs := rest.dropWhile (fun c => c.isWhitespace)
    match restWs with
    | [] => some value
    | ['%'] => some value
    | _ => none

/-- Embedding of `parsePercentString`: trims the string, matches the
numeric-with-optional-percent pattern and clamps the value into
`[0, 100]`; `none` when the pattern does not match. -/
def parsePercentString (s : String) : Option Rat :=
  match matchPercentPattern (jsTrim s).data with
  | some q => some (clamp100 q)
  | none => none

/-- The structured branch of `interpretCoverage`: an object value carrying
a `type` property (`typeof val === "object" && "type" in val`), with the
tag coerced via `String(val.type)`.  `none` when the guard fails or the
tag is unrecognized. -/
def structuredEntry (val : JValue) : Option PEntry :=
  if isObjectType val ∧ hasKey val "type" then
    if jsToString (jsGet val "type") = "covered" then
      some (.covered (jsGet val "copay"))
    else if jsToString (jsGet val "type") = "not_covered" then some .not_covered
    else if jsToString (jsGet val "type") = "percent" then
      some (.percent (clamp100 (numOr0 (jsToNumber (jsGet val "percent"))))
        (jsGet val "copay"))
    else none
  else none

/-- The number branch of `interpretCoverage`: clamp, then bucket. -/
def interpretNumber (x : Rat) : Option PEntry :=
  if clamp100 x ≤ 0 then some .not_covered
  else if clamp100 x ≥ 100 then some (.percent 100 .jundefined)
  else some (.percent (clamp100 x) .jundefined)

/-- The string branch of `interpretCoverage`: keyword match on the trimmed
lower-cased string, then the percent pattern. -/
def interpretString (v : String) : Option PEntry :=
  if jsToLower (jsTrim v) = "covered" ∨ jsToLower (jsTrim v) = "full" then
    some (.covered .jundefined)
  else if jsToLower (jsTrim v) = "not covered" ∨ jsToLower (jsTrim v) = "not_covered"
      ∨ jsToLower (jsTrim v) = "none" then some .not_covered
  else
    match parsePercentString (jsToLower (jsTrim v)) with
    | some pct =>
      if pct ≤ 0 then some .not_covered else some (.percent pct .jundefined)
    | none => none

/-- Embedding of `interpretCoverage`: converts a raw value into a typed
coverage entry, or `none` (the source returns `undefined`) when the value
is not recognized.  An object carrying an unrecognized `type` string falls
out of the structured branch and, being neither a number nor a string,
ends at the final `none`. -/
def interpretCoverage (val : JValue) : Option PEntry :=
  if val = .jnull ∨ val = .jundefined then none
  else
    match structuredEntry val, val with
    | some e, _ => some e
    | none, .jnum x => interpretNumber x
    | none, .jstr v => interpretString v
    | none, _ => none

end Treatments

/-!
Embedding of the diff helpers shared by `src/unnamed/part_010` and
`src/unnamed/part_006`: `isEqualCoverage` and `diffCoverageMaps`.  A
coverage map is a record of entry values; entries are kept as `JValue`
objects because `isEqualCoverage` compares serialized JSON text, which is
sensitive to the field order of the underlying object.
-/
namespace RecentChanges

open JValue

/-- One diff row, per the page-local `DiffRow` union. -/
inductive DiffRow where
  | added (key : String) (after : JValue)
  | removed (key : String) (before : JValue)
  | changed (key : String) (before : JValue) (after : JValue)
  deriving DecidableEq

/-- The key a row is about. -/
def DiffRow.key : DiffRow → String
  | .added k _ => k
  | .removed k _ => k
  | .changed k _ _ => k

/-- The sort rank of a row kind: `{ added: 0, changed: 1, removed: 2 }`. -/
def kindIdx : DiffRow → Nat
  | .added _ _ => 0
  | .changed _ _ _ => 1
  | .removed _ _ => 2

/-- Embedding of `isEqualCoverage`:
`JSON.stringify(a) === JSON.stringify(b)`, modelled as equality of
serialization normal forms. -/
def isEqualCoverage (a b : JValue) : Bool := jsonNF a == jsonNF b

/-- Iteration order of `new Set(l)`: first occurrences, in order. -/
def dedupKeys (l : List String) : List String := go l []
where
  /-- Keep elements not seen yet, tracking the seen ones. -/
  go : List String → List String → List String
  | [], _ => []
  | k :: ks, seen => if k ∈ seen then go ks seen else k :: go ks (k :: seen)

/-- The key set `new Set([...Object.keys(base), ...Object.keys(target)])`. -/
def unionKeys (base target : List (String × JValue)) : List String :=
  dedupKeys (base.map Prod.fst ++ target.map Prod.fst)

/-- Record access `m?.[k]` on a coverage map (`undefined` when absent). -/
def mapGet (m : List (String × JValue)) (k : String) : JValue :=
  match recordGet m k with
  | some v => v
  | none => .jundefined

/-- The row the loop body pushes for one key, if any. -/
def rowFor (base target : List (String × JValue)) (k : String) : Option DiffRow :=
  if truthy (mapGet base k) ∧ ¬ truthy (mapGet target k) then
    some (.removed k (mapGet base k))
  else if ¬ truthy (mapGet base k) ∧ truthy (mapGet target k) then
    some (.added k (mapGet target k))
  else if truthy (mapGet base k) ∧ truthy (mapGet target k)
      ∧ isEqualCoverage (mapGet base k) (mapGet target k) = false then
    some (.changed k (mapGet base k) (mapGet target k))
  else none

/-- Code-point comparison of character lists. -/
def charsLe : List Char → List Char → Bool
  | [], _ => true
  | _ :: _, [] => false
  | c :: cs, d :: ds => if c < d then true else if d < c then false else charsLe cs ds

/-- Model of `a.localeCompare(b) <= 0` as code-point lexicographic order
(the two agree on the plain ASCII item names the pages handle). -/
def strLe (a b : String) : Bool := charsLe a.data b.data

/-- The sort comparator `(order[a.kind] - order[b.kind]) || a.key.localeCompare(b.key)`
expressed as a boolean "a sorts no later than b" relation. -/
def rowLE (a b : DiffRow) : Bool :=
  kindIdx a < kindIdx b || (kindIdx a == kindIdx b && strLe a.key b.key)

/-- The comparator as a proposition, for use with the sorting lemmas. -/
def RowLe (a b : DiffRow) : Prop := rowLE a b = true

instance : DecidableRel RowLe := fun a b => instDecidableEqBool (rowLE a b) true

/-- Embedding of `diffCoverageMaps`: one row per union key where the two
maps disagree, then sorted by kind rank and key.  `Array.prototype.sort`
is modelled by a stable insertion sort; since the loop pushes at most one
row per (distinct) union key, the sorted order is uniquely determined and
any stable sort yields exactly the JS result. -/
def diffCoverageMaps (base target : List (String × JValue)) : List DiffRow :=
  let rows := (unionKeys base target).filterMap (rowFor base target)
  rows.insertionSort RowLe

end RecentChanges

namespace RecentChanges

/-- Canonical JSON object form of a typed coverage entry. -/
def coveredJson : JValue := .jobj [("type", .jstr "covered")]

/-- Canonical not-covered entry object. -/
def notCoveredJson : JValue := .jobj [("type", .jstr "not_covered")]

/-- Canonical percent entry object without copay. -/
def percentJson (p : Rat) : JValue :=
  .jobj [("type", .jstr "percent"), ("percent", .jnum p)]

end RecentChanges

/-!
Embedding of `src/routes/hospital/treatments/HospitalTreatmentsPage.tsx`:
the typed `CoverageEntry` union, `rankCoverage` and `bestPolicyForIllness`.
-/
namespace HospitalTreatments

/-- The page's typed coverage entry.  `copay` is an optional number
(absent field modelled as `none`). -/
inductive CoverageEntry where
  | covered
  | not_covered
  | percent (percent : Rat) (copay : Option Rat)
  deriving DecidableEq

/-- Embedding of `rankCoverage`: higher is better, full > partial > none. -/
def rankCoverage : Option CoverageEntry → Int
  | none => 0
  | some .covered => 3
  | some (.percent p _) => if p ≥ 100 then 3 else if p > 0 then 2 else 0
  | some .not_covered => 0

/-- A policy as the page sees it. -/
structure Policy where
  id : String
  name : String
  coverage_map : List (String × CoverageEntry)
  deriving DecidableEq

/-- The result record of `bestPolicyForIllness`. -/
structure BestResult where
  policyId : Option String
  policyName : Option String
  score : Int
  details : List (String × Option CoverageEntry)
  deriving DecidableEq

/-- The per-item entries recorded for one policy (`details[m] = entry`). -/
def detailsFor (pol : Policy) (meds : List String) :
    List (String × Option CoverageEntry) :=
  meds.foldl (fun d m => recordSet d m (recordGet pol.coverage_map m)) []

/-- The score of one policy: sum over required items of the entry rank. -/
def scoreFor (pol : Policy) (meds : List String) : Int :=
  (meds.map (fun m => rankCoverage (recordGet pol.coverage_map m))).sum

/-- The candidate loop of `bestPolicyForIllness`, folding the running best. -/
def bestLoop (policyById : String → Option Policy) (meds : List String) :
    List String → BestResult → BestResult
  | [], best => best
  | pid :: rest, best =>
    match policyById pid with
    | none => bestLoop policyById meds rest best
    | some pol =>
      if best.score < scoreFor pol meds then
        bestLoop policyById meds rest
          ⟨some pol.id, some pol.name, scoreFor pol meds, detailsFor pol meds⟩
      else bestLoop policyById meds rest best

/-- Embedding of `bestPolicyForIllness`: the best-scoring policy among the
candidate ids, starting from the sentinel `{ score: -1, details: {} }`. -/
def bestPolicyForIllness (patientPolicyIds : List String) (meds : List String)
    (policyById : String → Option Policy) : BestResult :=
  bestLoop policyById meds patientPolicyIds ⟨none, none, -1, []⟩

end HospitalTreatments

/-!
Embedding of the update-policy page (`src/unnamed/part_007`),
`normalizeCoverageMap`: re-shapes a typed coverage map so every entry
matches the server schema, in particular dropping any copay.
-/
namespace HospitalUpdatePolicy

/-- An entry of the input map as the function inspects it dynamically:
a `type` tag plus optional `percent` and `copay` numbers. -/
structure WireEntry where
  type : String
  percent : Option Rat
  copay : Option Rat
  deriving DecidableEq

/-- The loop body: the server-schema entry written for one input entry.
`Number((v as any).percent ?? 0)` is the stored percent (default `0`);
a type other than `"percent"`/`"covered"` becomes `not_covered`. -/
def toServerEntry (v : WireEntry) : HospitalTreatments.CoverageEntry :=
  if v.type = "percent" then .percent (v.percent.getD 0) none
  else if v.type = "covered" then .covered
  else .not_covered

/-- Embedding of `normalizeCoverageMap`: rebuild the record entry by
entry via `toServerEntry`. -/
def normalizeCoverageMap (m : List (String × WireEntry)) :
    List (String × HospitalTreatments.CoverageEntry) :=
  m.foldl (fun out kv => recordSet out kv.1 (toServerEntry kv.2)) []

end HospitalUpdatePolicy

namespace RecentChanges

open JValue

/-- The typed `CoverageEntry` union of the diff pages:
`{type:"covered"} | {type:"percent", percent, copay?} | {type:"not_covered"}`. -/
inductive CoverageEntry where
  | covered
  | not_covered
  | percent (percent : Rat) (copay : Option Rat)
  deriving DecidableEq

/-- The JSON object form of a typed entry with fields in declaration order
and an absent copay written as a missing field. -/
def entryJson : CoverageEntry → JValue
  | .covered => .jobj [("type", .jstr "covered")]
  | .not_covered => .jobj [("type", .jstr "not_covered")]
  | .percent p none => .jobj [("type", .jstr "percent"), ("percent", .jnum p)]
  | .percent p (some cp) =>
    .jobj [("type", .jstr "percent"), ("percent", .jnum p), ("copay", .jnum cp)]

/-- The same entry with an absent copay written as an explicit field whose
value is `undefined` (as some call sites produce). -/
def entryJsonU : CoverageEntry → JValue
  | .covered => .jobj [("type", .jstr "covered"), ("copay", .jundefined)]
  | .not_covered => .jobj [("type", .jstr "not_covered")]
  | .percent p none =>
    .jobj [("type", .jstr "percent"), ("percent", .jnum p), ("copay", .jundefined)]
  | .percent p (some cp) =>
    .jobj [("type", .jstr "percent"), ("percent", .jnum p), ("copay", .jnum cp)]

/-- Modelled from the claim text, for comparison with the implementation:
two entry objects are structurally equal when their `type`, `percent` and
`copay` fields agree, irrespective of field order, with a missing field
and an `undefined` field identified. -/
def fieldsAgree (a b : JValue) : Bool :=
  (jsonNF (jsGet a "type") == jsonNF (jsGet b "type"))
  && (jsonNF (jsGet a "percent") == jsonNF (jsGet b "percent"))
  && (jsonNF (jsGet a "copay") == jsonNF (jsGet b "copay"))

/-- Swap the roles of base and target in one row. -/
def swapRow : DiffRow → DiffRow
  | .added k a => .removed k a
  | .removed k b => .added k b
  | .changed k b a => .changed k a b

end RecentChanges

namespace HospitalTreatments

/-- The copay payload an entry carries, if any. -/
def copayOf : CoverageEntry → Option Rat
  | .covered => none
  | .not_covered => none
  | .percent _ c => c

end HospitalTreatments

/-! Shared lemmas. -/

theorem clamp100_nonneg (q : Rat) : 0 ≤ clamp100 q := le_max_left 0 (min 100 q)

theorem clamp100_le (q : Rat) : clamp100 q ≤ 100 :=
  max_le (by norm_num) (min_le_left 100 q)

theorem parsePercentString_bounds (s : String) (p : Rat)
    (h : Treatments.parsePercentString s = some p) : 0 ≤ p ∧ p ≤ 100 := by
  unfold Treatments.parsePercentString at h
  rcases hm : Treatments.matchPercentPattern (jsTrim s).data with _ | q
  · rw [hm] at h; exact absurd h (by simp)
  · rw [hm] at h
    simp only [Option.some.injEq] at h
    exact h ▸ ⟨clamp100_nonneg q, clamp100_le q⟩

theorem structuredEntry_percent_bounds (v : JValue) (p : Rat) (c : JValue)
    (h : Treatments.structuredEntry v = some (.percent p c)) :
    0 ≤ p ∧ p ≤ 100 := by
  unfold Treatments.structuredEntry at h
  split at h
  · split at h
    · simp at h
    · split at h
      · simp at h
      · split at h
        · simp only [Option.some.injEq, Treatments.PEntry.percent.injEq] at h
          obtain ⟨hp, -⟩ := h
          rw [← hp]
          exact ⟨clamp100_nonneg _, clamp100_le _⟩
        · simp at h
  · simp at h

theorem interpretNumber_percent_bounds (x p : Rat) (c : JValue)
    (h : Treatments.interpretNumber x = some (.percent p c)) :
    0 ≤ p ∧ p ≤ 100 := by
  unfold Treatments.interpretNumber at h
  split at h
  · simp at h
  · split at h
    · simp only [Option.some.injEq, Treatments.PEntry.percent.injEq] at h
      obtain ⟨hp, -⟩ := h
      rw [← hp]; norm_num
    · simp only [Option.some.injEq, Treatments.PEntry.percent.injEq] at h
      obtain ⟨hp, -⟩ := h
      rw [← hp]
      exact ⟨clamp100_nonneg _, clamp100_le _⟩

theorem interpretString_percent_bounds (s : String) (p : Rat) (c : JValue)
    (h : Treatments.interpretString s = some (.percent p c)) :
    0 ≤ p ∧ p ≤ 100 := by
  unfold Treatments.interpretString at h
  split at h
  · simp at h
  · split at h
    · simp at h
    · rcases hm : Treatments.parsePercentString (jsToLower (jsTrim s)) with _ | q
      · rw [hm] at h; simp at h
      · rw [hm] at h
        split at h
        · rename_i q2 heq
          injection heq with hq
          subst hq
          split at h
          · simp at h
          · simp only [Option.some.injEq, Treatments.PEntry.percent.injEq] at h
            obtain ⟨hp, -⟩ := h
            rw [← hp]
            exact parsePercentString_bounds _ _ hm
        · simp at h

theorem interpretCoverage_jstr (s : String) :
    Treatments.interpretCoverage (.jstr s) = Treatments.interpretString s := by
  unfold Treatments.interpretCoverage
  have hs : Treatments.structuredEntry (.jstr s) = none := by
    unfold Treatments.structuredEntry
    simp [JValue.isObjectType]
  rw [if_neg (by simp), hs]

/-- C1 (amended): for the treatments-page interpreter `interpretCoverage`,
every entry produced with a percent payload satisfies `0 ≤ p ≤ 100`,
whatever the raw value was.  (The patient-policies page normalizer does
not share this invariant; see the counterexample.) -/
theorem interpretCoverage_percent_clamped (v : JValue) (p : Rat) (c : JValue)
    (h : Treatments.interpretCoverage v = some (.percent p c)) :
    0 ≤ p ∧ p ≤ 100 := by
  unfold Treatments.interpretCoverage at h
  split at h
  · simp at h
  · rcases hs : Treatments.structuredEntry v with _ | e
    · rw [hs] at h
      cases v with
      | jnum x => exact interpretNumber_percent_bounds x p c h
      | jstr s => exact interpretString_percent_bounds s p c h
      | jnull => simp at h
      | jundefined => simp at h
      | jbool b => simp at h
      | jarr l => simp at h
      | jobj l => simp at h
    · rw [hs] at h
      have he : e = .percent p c := by simpa using h
      rw [he] at hs
      exact structuredEntry_percent_bounds v p c hs

/-- C1 witness: `interpretCoverage(500)` produces `Percent(100)`, and the
theorem yields the bounds for it. -/
theorem interpretCoverage_percent_clamped_witness :
    (0 : Rat) ≤ 100 ∧ (100 : Rat) ≤ 100 :=
  interpretCoverage_percent_clamped (.jnum 500) 100 .jundefined (by decide)

/-- C1 counterexample: the patient-policies normalizer accepts
`{x: {type: "percent", percent: 500}}` and emits an entry whose percent
field is `500`, outside `[0, 100]` — `Number(v.percent) || 0` is stored
without clamping. -/
theorem normalize_percent_unclamped_cex :
    PatientPolicies.normalizeCoverageMap
        (.jobj [("x", .jobj [("type", .jstr "percent"), ("percent", .jnum 500)])]) =
      [("x", .jobj [("type", .jstr "percent"), ("percent", .jnum 500),
        ("copay", .jundefined)])]
    ∧ ¬ ((500 : Rat) ≤ 100) :=
  ⟨by decide, by decide⟩

/-- C2 counterexample: for the raw entry value `{type: "bogus"}`, the array
form keeps the object verbatim under its key while the object form drops
it, so the two normalized maps differ — the array branch does not apply the
entry interpretation to object values. -/
theorem normalize_array_object_mismatch_cex :
    PatientPolicies.normalizeCoverageMap
        (.jarr [.jobj [("x", .jobj [("type", .jstr "bogus")])]]) =
      [("x", .jobj [("type", .jstr "bogus")])]
    ∧ PatientPolicies.normalizeCoverageMap
        (.jobj [("x", .jobj [("type", .jstr "bogus")])]) = []
    ∧ ([("x", JValue.jobj [("type", .jstr "bogus")])] : List (String × JValue)) ≠ [] :=
  ⟨by decide, by decide, by decide⟩

/-- C2 (amended): array/object shape equivalence does hold when the raw
entry value is a number (and the item key is nonempty): both branches
write the same clamped entry. -/
theorem normalize_array_object_equiv_numeric (x : String) (n : Rat) (hx : x ≠ "") :
    PatientPolicies.normalizeCoverageMap (.jarr [.jobj [(x, .jnum n)]]) =
    PatientPolicies.normalizeCoverageMap (.jobj [(x, .jnum n)]) := by
  simp [PatientPolicies.normalizeCoverageMap, PatientPolicies.arrayStep,
    PatientPolicies.objectStep, JValue.truthy, JValue.isObjectType,
    JValue.jsKeys, JValue.jsEntries, JValue.jsGet, hx]

/-- C2 witness: the spec instance `normalize([{x: 50}]) = normalize({x: 50})`. -/
theorem normalize_array_object_equiv_numeric_witness :
    PatientPolicies.normalizeCoverageMap (.jarr [.jobj [("x", .jnum 50)]]) =
    PatientPolicies.normalizeCoverageMap (.jobj [("x", .jnum 50)]) :=
  normalize_array_object_equiv_numeric "x" 50 (by decide)

theorem recordSet_keys_subset {α : Type} (m : List (String × α)) (k : String) (v : α) :
    (recordSet m k v).map Prod.fst ⊆ m.map Prod.fst ++ [k] := by
  unfold recordSet
  split
  · intro a ha
    simp only [List.map_map, List.mem_map, Function.comp] at ha
    obtain ⟨p, hp, hpa⟩ := ha
    by_cases hk : p.1 == k
    · rw [if_pos hk] at hpa
      simp [← hpa]
    · rw [if_neg hk] at hpa
      exact List.mem_append_left _ (hpa ▸ List.mem_map_of_mem Prod.fst hp)
  · simp

theorem foldl_objectStep_keys (fields : List (String × JValue))
    (acc : List (String × JValue)) :
    (fields.foldl PatientPolicies.objectStep acc).map Prod.fst ⊆
      acc.map Prod.fst ++ fields.map Prod.fst := by
  induction fields generalizing acc with
  | nil => simp
  | cons kv rest ih =>
    have hstep : (PatientPolicies.objectStep acc kv).map Prod.fst ⊆
        acc.map Prod.fst ++ [kv.1] := by
      unfold PatientPolicies.objectStep
      split
      · exact recordSet_keys_subset ..
      · split
        · exact recordSet_keys_subset ..
        · exact fun a ha => List.mem_append_left _ ha
    intro a ha
    have := ih (PatientPolicies.objectStep acc kv) ha
    rcases List.mem_append.mp this with h1 | h2
    · rcases List.mem_append.mp (hstep h1) with h3 | h4
      · exact List.mem_append_left _ h3
      · simp only [List.mem_singleton] at h4
        subst h4
        simp
    · simp [h2]

/-- C6: the patient-policies normalizer is total and silently drops
unrecognized entries: falsy input (`null`/`undefined`) gives the empty
map; the spec instance `{a: {type: "bogus"}, b: {type: "covered"}}`
normalizes to a map holding only `b`; and for any object input the output
keys are a subset of the input keys (nothing new is invented, dropped
entries simply leave their key out). -/
theorem normalizeCoverageMap_total_and_drops :
    PatientPolicies.normalizeCoverageMap .jnull = []
    ∧ PatientPolicies.normalizeCoverageMap .jundefined = []
    ∧ PatientPolicies.normalizeCoverageMap
        (.jobj [("a", .jobj [("type", .jstr "bogus")]),
                ("b", .jobj [("type", .jstr "covered")])]) =
        [("b", .jobj [("type", .jstr "covered"), ("copay", .jundefined)])]
    ∧ ∀ fields : List (String × JValue),
        (PatientPolicies.normalizeCoverageMap (.jobj fields)).map Prod.fst ⊆
          fields.map Prod.fst := by
  refine ⟨by decide, by decide, by decide, ?_⟩
  intro fields
  have h := foldl_objectStep_keys fields []
  simpa [PatientPolicies.normalizeCoverageMap, JValue.truthy, JValue.jsEntries] using h

/-- C6 witness: the key-subset part applied to a concrete object input. -/
theorem normalizeCoverageMap_total_and_drops_witness :
    "b" ∈ (["a", "b"] : List String) :=
  normalizeCoverageMap_total_and_drops.2.2.2
    [("a", .jobj [("type", .jstr "bogus")]), ("b", .jobj [("type", .jstr "covered")])]
    (by decide)

/-- C7: string entry interpretation.  A string raw value is trimmed and
lower-cased; `"covered"`/`"full"` map to `Covered`,
`"not covered"`/`"not_covered"`/`"none"` map to `NotCovered`, a
numeric-with-optional-percent pattern maps to the clamped `Percent`
(`≤ 0` becoming `NotCovered`), and any other string is dropped (`none`).
The second conjunct is the clamping bound for every pattern match. -/
theorem interpretCoverage_string_spec (s : String) :
    (Treatments.interpretCoverage (.jstr s) =
      if jsToLower (jsTrim s) = "covered" ∨ jsToLower (jsTrim s) = "full" then
        some (.covered .jundefined)
      else if jsToLower (jsTrim s) = "not covered" ∨ jsToLower (jsTrim s) = "not_covered"
          ∨ jsToLower (jsTrim s) = "none" then some .not_covered
      else
        match Treatments.parsePercentString (jsToLower (jsTrim s)) with
        | some pct =>
          if pct ≤ 0 then some .not_covered else some (.percent pct .jundefined)
        | none => none)
    ∧ ∀ p : Rat, Treatments.parsePercentString (jsToLower (jsTrim s)) = some p →
        0 ≤ p ∧ p ≤ 100 := by
  constructor
  · rw [interpretCoverage_jstr]
    rfl
  · intro p hp
    exact parsePercentString_bounds _ p hp

/-- C7 witness: `" 150% "` parses to the clamped value `100`. -/
theorem interpretCoverage_string_spec_witness :
    (0 : Rat) ≤ 100 ∧ (100 : Rat) ≤ 100 :=
  (interpretCoverage_string_spec " 150% ").2 100 (by decide)

namespace RecentChanges

theorem mem_dedupKeys_go (l : List String) (seen : List String) (x : String) :
    x ∈ dedupKeys.go l seen ↔ x ∈ l ∧ x ∉ seen := by
  induction l generalizing seen with
  | nil => simp [dedupKeys.go]
  | cons k ks ih =>
    by_cases hk : k ∈ seen
    · rw [dedupKeys.go, if_pos hk, ih]
      simp only [List.mem_cons]
      constructor
      · rintro ⟨hx, hs⟩
        exact ⟨Or.inr hx, hs⟩
      · rintro ⟨hx | hx, hs⟩
        · exact absurd (hx ▸ hk) hs
        · exact ⟨hx, hs⟩
    · rw [dedupKeys.go, if_neg hk]
      simp only [List.mem_cons, ih]
      constructor
      · rintro (rfl | ⟨hx, hs⟩)
        · exact ⟨Or.inl rfl, hk⟩
        · refine ⟨Or.inr hx, fun hc => hs (Or.inr hc)⟩
      · rintro ⟨hx, hs⟩
        by_cases hxk : x = k
        · exact Or.inl hxk
        · refine Or.inr ⟨hx.resolve_left hxk, ?_⟩
          simp [List.mem_cons, hxk, hs]

theorem mem_dedupKeys (l : List String) (x : String) :
    x ∈ dedupKeys l ↔ x ∈ l := by
  rw [dedupKeys, mem_dedupKeys_go]
  simp

theorem mem_unionKeys (base target : List (String × JValue)) (k : String) :
    k ∈ unionKeys base target ↔
      k ∈ base.map Prod.fst ∨ k ∈ target.map Prod.fst := by
  rw [unionKeys, mem_dedupKeys, List.mem_append]

theorem rowFor_key (base target : List (String × JValue)) (k : String)
    (r : DiffRow) (h : rowFor base target k = some r) : r.key = k := by
  unfold rowFor at h
  split at h
  · cases h; rfl
  · split at h
    · cases h; rfl
    · split at h
      · cases h; rfl
      · cases h

theorem mapGet_not_mem (m : List (String × JValue)) (k : String)
    (h : k ∉ m.map Prod.fst) : mapGet m k = .jundefined := by
  unfold mapGet recordGet
  rw [List.find?_eq_none.mpr]
  intro p hp
  simp only [beq_iff_eq]
  exact fun hpk => h (hpk ▸ List.mem_map_of_mem Prod.fst hp)

theorem truthy_mapGet_mem (m : List (String × JValue)) (k : String)
    (h : JValue.truthy (mapGet m k) = true) : k ∈ m.map Prod.fst := by
  by_contra hk
  rw [mapGet_not_mem m k hk] at h
  exact absurd h (by simp [JValue.truthy])

theorem mem_diffCoverageMaps (base target : List (String × JValue)) (r : DiffRow) :
    r ∈ diffCoverageMaps base target ↔
      r.key ∈ unionKeys base target ∧ rowFor base target r.key = some r := by
  unfold diffCoverageMaps
  rw [(List.perm_insertionSort RowLe _).mem_iff, List.mem_filterMap]
  constructor
  · rintro ⟨k, hk, hr⟩
    have := rowFor_key base target k r hr
    exact this ▸ ⟨hk, hr⟩
  · rintro ⟨hk, hr⟩
    exact ⟨r.key, hk, hr⟩

theorem isEqualCoverage_comm (a b : JValue) :
    isEqualCoverage a b = isEqualCoverage b a := by
  by_cases h : JValue.jsonNF a = JValue.jsonNF b
  · simp [isEqualCoverage, h]
  · have h2 : ¬ JValue.jsonNF b = JValue.jsonNF a := fun hh => h hh.symm
    simp [isEqualCoverage, h, h2]

theorem swapRow_swapRow (r : DiffRow) : swapRow (swapRow r) = r := by
  cases r <;> rfl

theorem swapRow_key (r : DiffRow) : (swapRow r).key = r.key := by
  cases r <;> rfl

theorem rowFor_swap (base target : List (String × JValue)) (k : String) :
    rowFor target base k = (rowFor base target k).map swapRow := by
  unfold rowFor
  by_cases h1 : JValue.truthy (mapGet base k) <;>
    by_cases h2 : JValue.truthy (mapGet target k) <;>
      simp only [h1, h2, not_true, not_false_iff, true_and, false_and, and_true,
        and_false, if_true, if_false, Option.map_some, Option.map_none, swapRow,
        if_neg, not_true_eq_false, not_false_eq_true, and_self]
  · rw [isEqualCoverage_comm]
    by_cases he : isEqualCoverage (mapGet base k) (mapGet target k) = false <;>
      simp [he, swapRow]
  · rfl
  · rfl
  · simp

theorem rowFor_swap_some (base target : List (String × JValue)) (k : String)
    (r : DiffRow) :
    rowFor target base k = some r ↔ rowFor base target k = some (swapRow r) := by
  rw [rowFor_swap]
  rcases rowFor base target k with _ | s
  · simp
  · constructor
    · intro h
      have hs : swapRow s = r := by simpa using h
      rw [← hs, swapRow_swapRow]
    · intro h
      have hs : s = swapRow r := by simpa using h
      rw [hs]
      simp [swapRow_swapRow]

theorem mem_diff_swap (A B : List (String × JValue)) (r : DiffRow) :
    r ∈ diffCoverageMaps A B ↔ swapRow r ∈ diffCoverageMaps B A := by
  rw [mem_diffCoverageMaps, mem_diffCoverageMaps, swapRow_key]
  have hu : r.key ∈ unionKeys A B ↔ r.key ∈ unionKeys B A := by
    rw [mem_unionKeys, mem_unionKeys, or_comm]
  rw [rowFor_swap_some, hu]

end RecentChanges

/-- C8: diff symmetry.  `diff(A, B)` and `diff(B, A)` contain rows for
exactly the same keys; every `Added` row of one appears as a `Removed` row
(same key, same entry) of the other, and every `Changed` row appears with
its before/after entries swapped. -/
theorem diffCoverageMaps_symmetry (A B : List (String × JValue)) :
    (∀ k, (∃ r ∈ RecentChanges.diffCoverageMaps A B, r.key = k) ↔
          (∃ r ∈ RecentChanges.diffCoverageMaps B A, r.key = k))
    ∧ (∀ k e, RecentChanges.DiffRow.added k e ∈ RecentChanges.diffCoverageMaps A B ↔
          RecentChanges.DiffRow.removed k e ∈ RecentChanges.diffCoverageMaps B A)
    ∧ (∀ k e, RecentChanges.DiffRow.removed k e ∈ RecentChanges.diffCoverageMaps A B ↔
          RecentChanges.DiffRow.added k e ∈ RecentChanges.diffCoverageMaps B A)
    ∧ (∀ k b a, RecentChanges.DiffRow.changed k b a ∈ RecentChanges.diffCoverageMaps A B ↔
          RecentChanges.DiffRow.changed k a b ∈ RecentChanges.diffCoverageMaps B A) := by
  refine ⟨?_, ?_, ?_, ?_⟩
  · intro k
    constructor
    · rintro ⟨r, hr, hk⟩
      refine ⟨RecentChanges.swapRow r, (RecentChanges.mem_diff_swap A B r).mp hr, ?_⟩
      rw [RecentChanges.swapRow_key]
      exact hk
    · rintro ⟨r, hr, hk⟩
      refine ⟨RecentChanges.swapRow r, ?_, ?_⟩
      · have := (RecentChanges.mem_diff_swap B A r).mp hr
        exact (RecentChanges.mem_diff_swap A B (RecentChanges.swapRow r)).mpr
          (by rw [RecentChanges.swapRow_swapRow]; exact hr)
      · rw [RecentChanges.swapRow_key]
        exact hk
  · intro k e
    exact RecentChanges.mem_diff_swap A B (.added k e)
  · intro k e
    exact RecentChanges.mem_diff_swap A B (.removed k e)
  · intro k b a
    exact RecentChanges.mem_diff_swap A B (.changed k b a)

namespace RecentChanges

theorem charsLe_total : ∀ (x y : List Char),
    charsLe x y = true ∨ charsLe y x = true
  | [], _ => Or.inl rfl
  | _ :: _, [] => Or.inr rfl
  | c :: cs, d :: ds => by
    rcases lt_trichotomy c d with h | h | h
    · left
      simp [charsLe, h]
    · subst h
      rcases charsLe_total cs ds with ih | ih <;>
        simp [charsLe, lt_irrefl, ih]
    · right
      simp [charsLe, h]

theorem charsLe_trans : ∀ (x y z : List Char),
    charsLe x y = true → charsLe y z = true → charsLe x z = true
  | [], _, _, _, _ => rfl
  | _ :: _, [], _, h1, _ => by simp [charsLe] at h1
  | _ :: _, _ :: _, [], _, h2 => by simp [charsLe] at h2
  | c :: cs, d :: ds, e :: es, h1, h2 => by
    rcases lt_trichotomy c d with hcd | hcd | hcd
    · rcases lt_trichotomy d e with hde | hde | hde
      · simp [charsLe, lt_trans hcd hde]
      · subst hde
        simp [charsLe, hcd]
      · rw [charsLe, if_neg (lt_asymm hde), if_pos hde] at h2
        cases h2
    · subst hcd
      rcases lt_trichotomy c e with hce | hce | hce
      · simp [charsLe, hce]
      · subst hce
        rw [charsLe, if_neg (lt_irrefl c), if_neg (lt_irrefl c)] at h1 h2 ⊢
        exact charsLe_trans cs ds es h1 h2
      · rw [charsLe, if_neg (lt_asymm hce), if_pos hce] at h2
        cases h2
    · rw [charsLe, if_neg (lt_asymm hcd), if_pos hcd] at h1
      cases h1

theorem strLe_total (a b : String) : strLe a b = true ∨ strLe b a = true :=
  charsLe_total a.data b.data

theorem strLe_trans (a b c : String) (h1 : strLe a b = true)
    (h2 : strLe b c = true) : strLe a c = true :=
  charsLe_trans a.data b.data c.data h1 h2

theorem rowLE_total (a b : DiffRow) : rowLE a b = true ∨ rowLE b a = true := by
  unfold rowLE
  rcases Nat.lt_trichotomy (kindIdx a) (kindIdx b) with h | h | h
  · left
    simp [h]
  · rcases strLe_total a.key b.key with hs | hs
    · left
      simp [h, hs]
    · right
      simp [h, hs]
  · right
    simp [h]

theorem rowLE_trans (a b c : DiffRow) (h1 : rowLE a b = true)
    (h2 : rowLE b c = true) : rowLE a c = true := by
  unfold rowLE at h1 h2 ⊢
  simp only [Bool.or_eq_true, Bool.and_eq_true, decide_eq_true_eq,
    beq_iff_eq] at h1 h2 ⊢
  rcases h1 with h1 | ⟨h1e, h1s⟩
  · rcases h2 with h2 | ⟨h2e, h2s⟩
    · exact Or.inl (Nat.lt_trans h1 h2)
    · exact Or.inl (h2e ▸ h1)
  · rcases h2 with h2 | ⟨h2e, h2s⟩
    · exact Or.inl (h1e ▸ h2)
    · exact Or.inr ⟨h1e.trans h2e, strLe_trans _ _ _ h1s h2s⟩

instance : IsTotal DiffRow RowLe := ⟨rowLE_total⟩

instance : IsTrans DiffRow RowLe := ⟨rowLE_trans⟩

end RecentChanges

theorem rowLE_iff (r s : RecentChanges.DiffRow) :
    RecentChanges.rowLE r s = true ↔
      (RecentChanges.kindIdx r < RecentChanges.kindIdx s ∨
        (RecentChanges.kindIdx r = RecentChanges.kindIdx s ∧
          RecentChanges.strLe r.key s.key = true)) := by
  simp [RecentChanges.rowLE, Bool.or_eq_true, Bool.and_eq_true,
    decide_eq_true_eq, beq_iff_eq]

/-- C4 (amended): the differ output is sorted with every `Added` row before
every `Changed` row before every `Removed` row and, within one kind, keys
in ascending order; on the spec scenario (base `{x: NotCovered, z: Covered}`,
target `{x: Covered, y: Covered}`) the output order is
`Added(y), Changed(x), Removed(z)`. -/
theorem diffCoverageMaps_sorted :
    (∀ base target : List (String × JValue),
      (RecentChanges.diffCoverageMaps base target).Pairwise
        (fun r s => RecentChanges.kindIdx r < RecentChanges.kindIdx s ∨
          (RecentChanges.kindIdx r = RecentChanges.kindIdx s ∧
            RecentChanges.strLe r.key s.key = true)))
    ∧ RecentChanges.diffCoverageMaps
        [("x", RecentChanges.notCoveredJson), ("z", RecentChanges.coveredJson)]
        [("x", RecentChanges.coveredJson), ("y", RecentChanges.coveredJson)] =
      [.added "y" RecentChanges.coveredJson,
       .changed "x" RecentChanges.notCoveredJson RecentChanges.coveredJson,
       .removed "z" RecentChanges.coveredJson] := by
  constructor
  · intro base target
    have h := List.sorted_insertionSort RecentChanges.RowLe
      ((RecentChanges.unionKeys base target).filterMap
        (RecentChanges.rowFor base target))
    exact List.Pairwise.imp (fun hr => (rowLE_iff _ _).mp hr) h
  · decide

/-- C4 counterexample: the claimed scenario order
`Changed(x), Added(y), Removed(z)` is not what the differ returns — the
comparator ranks `Added` (0) before `Changed` (1), so `Added(y)` comes
first. -/
theorem diff_sort_scenario_cex :
    RecentChanges.diffCoverageMaps
        [("x", RecentChanges.notCoveredJson), ("z", RecentChanges.coveredJson)]
        [("x", RecentChanges.coveredJson), ("y", RecentChanges.coveredJson)] ≠
      [.changed "x" RecentChanges.notCoveredJson RecentChanges.coveredJson,
       .added "y" RecentChanges.coveredJson,
       .removed "z" RecentChanges.coveredJson] := by decide

/-- C3 counterexample: two entry objects with the same tag and payload but
different field order (`{type, percent}` vs `{percent, type}`) agree on all
fields, yet `isEqualCoverage` — serialized-text equality — distinguishes
them, so the differ emits a `Changed` row for structurally equal entries. -/
theorem isEqualCoverage_field_order_cex :
    RecentChanges.fieldsAgree
        (.jobj [("type", .jstr "percent"), ("percent", .jnum 50)])
        (.jobj [("percent", .jnum 50), ("type", .jstr "percent")]) = true
    ∧ RecentChanges.diffCoverageMaps
        [("x", .jobj [("type", .jstr "percent"), ("percent", .jnum 50)])]
        [("x", .jobj [("percent", .jnum 50), ("type", .jstr "percent")])] =
      [.changed "x" (.jobj [("type", .jstr "percent"), ("percent", .jnum 50)])
        (.jobj [("percent", .jnum 50), ("type", .jstr "percent")])] :=
  ⟨by decide, by decide⟩

/-- C3 (amended): a `Changed` row is emitted for a key exactly when both
maps hold a truthy entry for it and the entries serialize differently; on
entries in the canonical field order (`type`, `percent`, `copay`) the
serialization equality coincides with equality of tag and payload fields,
and an absent copay equals an explicitly `undefined` copay.  Entries with
reordered fields can compare unequal despite agreeing field-by-field (see
the counterexample). -/
theorem isEqualCoverage_semantics :
    (∀ (A B : List (String × JValue)) (k : String),
      (∃ b a, RecentChanges.DiffRow.changed k b a ∈
          RecentChanges.diffCoverageMaps A B) ↔
        (JValue.truthy (RecentChanges.mapGet A k) = true
          ∧ JValue.truthy (RecentChanges.mapGet B k) = true
          ∧ RecentChanges.isEqualCoverage (RecentChanges.mapGet A k)
              (RecentChanges.mapGet B k) = false))
    ∧ (∀ e1 e2 : RecentChanges.CoverageEntry,
        RecentChanges.isEqualCoverage (RecentChanges.entryJson e1)
          (RecentChanges.entryJson e2) = true ↔ e1 = e2)
    ∧ (∀ e : RecentChanges.CoverageEntry,
        RecentChanges.isEqualCoverage (RecentChanges.entryJsonU e)
          (RecentChanges.entryJson e) = true) := by
  refine ⟨?_, ?_, ?_⟩
  · intro A B k
    constructor
    · rintro ⟨b, a, h⟩
      rw [RecentChanges.mem_diffCoverageMaps] at h
      obtain ⟨-, hr⟩ := h
      unfold RecentChanges.rowFor at hr
      split at hr
      · simp at hr
      · split at hr
        · simp at hr
        · split at hr
          · rename_i hcond
            obtain ⟨h1, h2, h3⟩ := hcond
            exact ⟨h1, h2, h3⟩
          · simp at hr
    · rintro ⟨h1, h2, h3⟩
      refine ⟨RecentChanges.mapGet A k, RecentChanges.mapGet B k, ?_⟩
      rw [RecentChanges.mem_diffCoverageMaps]
      simp only [RecentChanges.DiffRow.key]
      refine ⟨?_, ?_⟩
      · exact (RecentChanges.mem_unionKeys A B k).mpr
          (Or.inl (RecentChanges.truthy_mapGet_mem A k h1))
      · unfold RecentChanges.rowFor
        rw [if_neg (by simp [h1, h2]), if_neg (by simp [h1, h2]),
          if_pos ⟨h1, h2, h3⟩]
  · intro e1 e2
    cases e1 <;> cases e2 <;>
      first
      | (rename_i p1 c1 p2 c2
         rcases c1 with _ | cp1 <;> rcases c2 with _ | cp2 <;>
           simp [RecentChanges.entryJson, RecentChanges.isEqualCoverage,
             JValue.jsonNF, JValue.nfFields, beq_iff_eq])
      | (rename_i p c
         rcases c with _ | cp <;>
           simp [RecentChanges.entryJson, RecentChanges.isEqualCoverage,
             JValue.jsonNF, JValue.nfFields, beq_iff_eq])
      | simp [RecentChanges.entryJson, RecentChanges.isEqualCoverage,
          JValue.jsonNF, JValue.nfFields, beq_iff_eq]
  · intro e
    cases e with
    | covered =>
      simp [RecentChanges.entryJsonU, RecentChanges.entryJson,
        RecentChanges.isEqualCoverage, JValue.jsonNF, JValue.nfFields]
    | not_covered =>
      simp [RecentChanges.entryJsonU, RecentChanges.entryJson,
        RecentChanges.isEqualCoverage, JValue.jsonNF, JValue.nfFields]
    | percent p c =>
      rcases c with _ | cp <;>
        simp [RecentChanges.entryJsonU, RecentChanges.entryJson,
          RecentChanges.isEqualCoverage, JValue.jsonNF, JValue.nfFields]

namespace HospitalTreatments

theorem rankCoverage_nonneg (e : Option CoverageEntry) : 0 ≤ rankCoverage e := by
  rcases e with _ | e
  · simp [rankCoverage]
  · cases e with
    | covered => simp [rankCoverage]
    | not_covered => simp [rankCoverage]
    | percent p c =>
      simp only [rankCoverage]
      split
      · norm_num
      · split <;> norm_num

theorem scoreFor_nonneg (pol : Policy) (meds : List String) :
    0 ≤ scoreFor pol meds := by
  apply List.sum_nonneg
  intro x hx
  obtain ⟨m, -, rfl⟩ := List.mem_map.mp hx
  exact rankCoverage_nonneg _

theorem bestLoop_spec (policyById : String → Option Policy) (meds : List String) :
    ∀ (ids : List String) (best : BestResult),
      (bestLoop policyById meds ids best = best
        ∧ ∀ pol ∈ ids.filterMap policyById, scoreFor pol meds ≤ best.score)
      ∨ (∃ pre pol post, ids.filterMap policyById = pre ++ pol :: post
          ∧ bestLoop policyById meds ids best =
              ⟨some pol.id, some pol.name, scoreFor pol meds, detailsFor pol meds⟩
          ∧ best.score < scoreFor pol meds
          ∧ (∀ q ∈ pre, scoreFor q meds < scoreFor pol meds)
          ∧ (∀ q ∈ post, scoreFor q meds ≤ scoreFor pol meds)) := by
  intro ids
  induction ids with
  | nil =>
    intro best
    left
    exact ⟨rfl, by simp⟩
  | cons pid rest ih =>
    intro best
    rcases hp : policyById pid with _ | pol
    · have hloop : bestLoop policyById meds (pid :: rest) best =
          bestLoop policyById meds rest best := by
        rw [bestLoop, hp]
      have hfm : (pid :: rest).filterMap policyById = rest.filterMap policyById := by
        rw [List.filterMap_cons_none hp]
      rcases ih best with ⟨he, hb⟩ | ⟨pre, pol2, post, hc, he, hgt, hpre, hpost⟩
      · left
        exact ⟨hloop.trans he, by rw [hfm]; exact hb⟩
      · right
        exact ⟨pre, pol2, post, by rw [hfm]; exact hc, hloop.trans he, hgt, hpre, hpost⟩
    · have hfm : (pid :: rest).filterMap policyById =
          pol :: rest.filterMap policyById := List.filterMap_cons_some hp
      by_cases hlt : best.score < scoreFor pol meds
      · have hloop : bestLoop policyById meds (pid :: rest) best =
            bestLoop policyById meds rest
              ⟨some pol.id, some pol.name, scoreFor pol meds, detailsFor pol meds⟩ := by
          rw [bestLoop, hp]
          dsimp only
          rw [if_pos hlt]
        rcases ih ⟨some pol.id, some pol.name, scoreFor pol meds, detailsFor pol meds⟩
            with ⟨he, hb⟩ | ⟨pre, pol2, post, hc, he, hgt, hpre, hpost⟩
        · right
          refine ⟨[], pol, rest.filterMap policyById, by simp [hfm], hloop.trans he,
            hlt, by simp, ?_⟩
          exact hb
        · right
          refine ⟨pol :: pre, pol2, post, ?_, hloop.trans he, ?_, ?_, hpost⟩
          · rw [hfm, hc]
            rfl
          · exact lt_trans hlt hgt
          · intro q hq
            rcases List.mem_cons.mp hq with rfl | hq2
            · exact hgt
            · exact hpre q hq2
      · have hloop : bestLoop policyById meds (pid :: rest) best =
            bestLoop policyById meds rest best := by
          rw [bestLoop, hp]
          dsimp only
          rw [if_neg hlt]
        rcases ih best with ⟨he, hb⟩ | ⟨pre, pol2, post, hc, he, hgt, hpre, hpost⟩
        · left
          refine ⟨hloop.trans he, ?_⟩
          intro q hq
          rw [hfm] at hq
          rcases List.mem_cons.mp hq with rfl | hq2
          · exact not_lt.mp hlt
          · exact hb q hq2
        · right
          refine ⟨pol :: pre, pol2, post, ?_, hloop.trans he, hgt, ?_, hpost⟩
          · rw [hfm, hc]
            rfl
          · intro q hq
            rcases List.mem_cons.mp hq with rfl | hq2
            · exact lt_of_le_of_lt (not_lt.mp hlt) hgt
            · exact hpre q hq2

end HospitalTreatments

/-- C5: the ranking helper.  `rank` is `3` for `Covered`, `3`/`0`/`2` for
`Percent(p)` according to `p ≥ 100` / `p ≤ 0` / otherwise, and `0` for
`NotCovered` and missing entries; a policy score is the sum of ranks over
the required items; the helper returns the policy with the strictly
highest score, the first-seen policy winning ties; and on the spec
scenario it selects P2 with score 4 over P1 with score 3. -/
theorem bestPolicyForIllness_ranking_spec :
    (HospitalTreatments.rankCoverage (some .covered) = 3
      ∧ HospitalTreatments.rankCoverage (some .not_covered) = 0
      ∧ HospitalTreatments.rankCoverage none = 0
      ∧ (∀ (p : Rat) (c : Option Rat), 100 ≤ p →
          HospitalTreatments.rankCoverage (some (.percent p c)) = 3)
      ∧ (∀ (p : Rat) (c : Option Rat), p ≤ 0 →
          HospitalTreatments.rankCoverage (some (.percent p c)) = 0)
      ∧ (∀ (p : Rat) (c : Option Rat), 0 < p → p < 100 →
          HospitalTreatments.rankCoverage (some (.percent p c)) = 2))
    ∧ (∀ (pol : HospitalTreatments.Policy) (meds : List String),
        HospitalTreatments.scoreFor pol meds =
          (meds.map (fun m => HospitalTreatments.rankCoverage
            (recordGet pol.coverage_map m))).sum)
    ∧ (∀ (ids meds : List String)
        (policyById : String → Option HospitalTreatments.Policy),
        (∀ pol ∈ ids.filterMap policyById,
          HospitalTreatments.scoreFor pol meds ≤
            (HospitalTreatments.bestPolicyForIllness ids meds policyById).score)
        ∧ (ids.filterMap policyById ≠ [] →
            ∃ pre pol post, ids.filterMap policyById = pre ++ pol :: post
              ∧ HospitalTreatments.bestPolicyForIllness ids meds policyById =
                  ⟨some pol.id, some pol.name, HospitalTreatments.scoreFor pol meds,
                    HospitalTreatments.detailsFor pol meds⟩
              ∧ (∀ q ∈ pre, HospitalTreatments.scoreFor q meds <
                  HospitalTreatments.scoreFor pol meds)))
    ∧ HospitalTreatments.bestPolicyForIllness ["p1", "p2"] ["metformin", "insulin"]
        (fun pid =>
          if pid = "p1" then
            some ⟨"p1", "P1", [("metformin", .covered), ("insulin", .not_covered)]⟩
          else if pid = "p2" then
            some ⟨"p2", "P2", [("metformin", .percent 50 none),
              ("insulin", .percent 50 none)]⟩
          else none) =
      ⟨some "p2", some "P2", 4,
        [("metformin", some (.percent 50 none)),
         ("insulin", some (.percent 50 none))]⟩ := by
  refine ⟨⟨rfl, rfl, rfl, ?_, ?_, ?_⟩, fun pol meds => rfl, ?_, by decide⟩
  · intro p c hp
    simp [HospitalTreatments.rankCoverage, hp]
  · intro p c hp
    have h1 : ¬ (p ≥ 100) := by linarith
    have h2 : ¬ (p > 0) := by linarith
    simp [HospitalTreatments.rankCoverage, h1, h2]
  · intro p c hp1 hp2
    have h1 : ¬ (p ≥ 100) := by linarith
    simp [HospitalTreatments.rankCoverage, h1, hp1]
  · intro ids meds policyById
    rcases HospitalTreatments.bestLoop_spec policyById meds ids ⟨none, none, -1, []⟩
        with ⟨he, hb⟩ | ⟨pre, pol, post, hc, he, hgt, hpre, hpost⟩
    · constructor
      · intro pol hpol
        rw [HospitalTreatments.bestPolicyForIllness, he]
        exact hb pol hpol
      · intro hne
        rcases hx : ids.filterMap policyById with _ | ⟨pol, rest⟩
        · exact absurd hx hne
        · have h0 := hb pol (by rw [hx]; exact List.mem_cons_self pol rest)
          have h1 := HospitalTreatments.scoreFor_nonneg pol meds
          simp at h0
          linarith
    · constructor
      · intro q hq
        rw [HospitalTreatments.bestPolicyForIllness, he]
        rw [hc] at hq
        rcases List.mem_append.mp hq with hq1 | hq2
        · exact le_of_lt (hpre q hq1)
        · rcases List.mem_cons.mp hq2 with rfl | hq3
          · exact le_refl _
          · exact hpost q hq3
      · intro _hne
        exact ⟨pre, pol, post, hc,
          by rw [HospitalTreatments.bestPolicyForIllness, he], hpre⟩

/-- C5 witness: the scenario instance — P1 scores no more than the
selected best score. -/
theorem bestPolicyForIllness_ranking_spec_witness :
    HospitalTreatments.scoreFor
        ⟨"p1", "P1", [("metformin", .covered), ("insulin", .not_covered)]⟩
        ["metformin", "insulin"] ≤
      (HospitalTreatments.bestPolicyForIllness ["p1", "p2"] ["metformin", "insulin"]
        (fun pid =>
          if pid = "p1" then
            some ⟨"p1", "P1", [("metformin", .covered), ("insulin", .not_covered)]⟩
          else if pid = "p2" then
            some ⟨"p2", "P2", [("metformin", .percent 50 none),
              ("insulin", .percent 50 none)]⟩
          else none)).score :=
  (bestPolicyForIllness_ranking_spec.2.2.1 ["p1", "p2"] ["metformin", "insulin"] _).1
    _ (by decide)

/-- C10: degenerate inputs of the ranking helper.  When no candidate id
resolves (including an empty candidate list) the sentinel
`{score: -1, no policyId, no policyName, empty details}` is returned;
a candidate id missing from the index is skipped without contributing;
and with an empty required-items list every resolvable policy scores `0`,
so the first resolvable policy is returned with score `0` and empty
details. -/
theorem bestPolicyForIllness_degenerate_spec :
    (∀ (ids meds : List String)
        (policyById : String → Option HospitalTreatments.Policy),
        ids.filterMap policyById = [] →
        HospitalTreatments.bestPolicyForIllness ids meds policyById =
          ⟨none, none, -1, []⟩)
    ∧ (∀ (pid : String) (ids meds : List String)
        (policyById : String → Option HospitalTreatments.Policy),
        policyById pid = none →
        HospitalTreatments.bestPolicyForIllness (pid :: ids) meds policyById =
          HospitalTreatments.bestPolicyForIllness ids meds policyById)
    ∧ (∀ (ids : List String)
        (policyById : String → Option HospitalTreatments.Policy)
        (pol : HospitalTreatments.Policy) (rest : List HospitalTreatments.Policy),
        ids.filterMap policyById = pol :: rest →
        HospitalTreatments.bestPolicyForIllness ids [] policyById =
          ⟨some pol.id, some pol.name, 0, []⟩) := by
  refine ⟨?_, ?_, ?_⟩
  · intro ids meds policyById hnil
    rcases HospitalTreatments.bestLoop_spec policyById meds ids ⟨none, none, -1, []⟩
        with ⟨he, -⟩ | ⟨pre, pol, post, hc, -⟩
    · exact he
    · rw [hnil] at hc
      exact absurd hc.symm (List.append_ne_nil_of_right_ne_nil pre (by simp))
  · intro pid ids meds policyById hp
    rw [HospitalTreatments.bestPolicyForIllness,
      HospitalTreatments.bestPolicyForIllness, HospitalTreatments.bestLoop, hp]
  · intro ids policyById pol rest hc0
    rcases HospitalTreatments.bestLoop_spec policyById [] ids ⟨none, none, -1, []⟩
        with ⟨he, hb⟩ | ⟨pre, pol2, post, hc, he, hgt, hpre, hpost⟩
    · have h0 := hb pol (by rw [hc0]; exact List.mem_cons_self pol rest)
      have : HospitalTreatments.scoreFor pol [] = 0 := rfl
      rw [this] at h0
      simp at h0
    · cases pre with
      | nil =>
        rw [hc0] at hc
        simp only [List.nil_append, List.cons.injEq] at hc
        obtain ⟨rfl, -⟩ := hc
        rw [HospitalTreatments.bestPolicyForIllness, he]
        rfl
      | cons q pre2 =>
        have hq := hpre q (List.mem_cons_self q pre2)
        have h1 : HospitalTreatments.scoreFor q [] = 0 := rfl
        have h2 : HospitalTreatments.scoreFor pol2 [] = 0 := rfl
        rw [h1, h2] at hq
        exact absurd hq (lt_irrefl 0)

/-- C10 witness: an unresolvable candidate list yields the sentinel result. -/
theorem bestPolicyForIllness_degenerate_spec_witness :
    HospitalTreatments.bestPolicyForIllness ["q"] ["m"] (fun _ => none) =
      ⟨none, none, -1, []⟩ :=
  bestPolicyForIllness_degenerate_spec.1 ["q"] ["m"] (fun _ => none) rfl

theorem recordSet_fresh {α : Type} (m : List (String × α)) (k : String) (v : α)
    (h : k ∉ m.map Prod.fst) : recordSet m k v = m ++ [(k, v)] := by
  unfold recordSet
  rw [if_neg]
  intro hc
  obtain ⟨p, hp, he⟩ := List.any_eq_true.mp hc
  have hpk : p.1 = k := by simpa using he
  exact h (hpk ▸ List.mem_map_of_mem Prod.fst hp)

theorem foldl_recordSet_map {α β : Type} (f : α → β) :
    ∀ (m : List (String × α)) (acc : List (String × β)),
      (m.map Prod.fst).Nodup →
      (∀ k, k ∈ m.map Prod.fst → k ∉ acc.map Prod.fst) →
      m.foldl (fun out kv => recordSet out kv.1 (f kv.2)) acc =
        acc ++ m.map (fun kv => (kv.1, f kv.2))
  | [], acc, _, _ => by simp
  | kv :: rest, acc, hnd, hacc => by
    have hfresh : kv.1 ∉ acc.map Prod.fst :=
      hacc kv.1 (by simp)
    have hnd2 : (rest.map Prod.fst).Nodup := by
      simpa using hnd.of_cons
    have hhead : kv.1 ∉ rest.map Prod.fst := by
      have h1 : (kv.1 :: rest.map Prod.fst).Nodup := by simpa using hnd
      exact (List.nodup_cons.mp h1).1
    rw [List.foldl_cons, recordSet_fresh acc kv.1 (f kv.2) hfresh,
      foldl_recordSet_map f rest (acc ++ [(kv.1, f kv.2)]) hnd2 ?_]
    · simp
    · intro k hk hmem
      rw [List.map_append, List.mem_append] at hmem
      rcases hmem with hka | hkk
      · exact hacc k (by simp [hk]) hka
      · have hkv : k = kv.1 := by simpa using hkk
        exact hhead (hkv ▸ hk)

/-- C9: the update-policy page normalizer is total over its keys and strips
copays.  On a map with distinct keys (every JS record) the output is the
pointwise image of `toServerEntry`: the key set is preserved exactly, no
output entry carries a copay, `percent` entries keep only their percent
(defaulting to `0` when absent), `covered` stays `covered` without copay,
and any other tag becomes `not_covered`. -/
theorem updatePolicy_normalizeCoverageMap_spec :
    (∀ m : List (String × HospitalUpdatePolicy.WireEntry),
        (m.map Prod.fst).Nodup →
        HospitalUpdatePolicy.normalizeCoverageMap m =
          m.map (fun kv => (kv.1, HospitalUpdatePolicy.toServerEntry kv.2)))
    ∧ (∀ m : List (String × HospitalUpdatePolicy.WireEntry),
        (m.map Prod.fst).Nodup →
        (HospitalUpdatePolicy.normalizeCoverageMap m).map Prod.fst = m.map Prod.fst)
    ∧ (∀ v : HospitalUpdatePolicy.WireEntry,
        HospitalTreatments.copayOf (HospitalUpdatePolicy.toServerEntry v) = none)
    ∧ (∀ v : HospitalUpdatePolicy.WireEntry, v.type = "percent" →
        HospitalUpdatePolicy.toServerEntry v = .percent (v.percent.getD 0) none)
    ∧ (∀ v : HospitalUpdatePolicy.WireEntry, v.type = "covered" →
        HospitalUpdatePolicy.toServerEntry v = .covered)
    ∧ (∀ v : HospitalUpdatePolicy.WireEntry,
        v.type ≠ "percent" → v.type ≠ "covered" →
        HospitalUpdatePolicy.toServerEntry v = .not_covered) := by
  have hmain : ∀ m : List (String × HospitalUpdatePolicy.WireEntry),
      (m.map Prod.fst).Nodup →
      HospitalUpdatePolicy.normalizeCoverageMap m =
        m.map (fun kv => (kv.1, HospitalUpdatePolicy.toServerEntry kv.2)) := by
    intro m hnd
    have h := foldl_recordSet_map HospitalUpdatePolicy.toServerEntry m [] hnd
      (by simp)
    simpa [HospitalUpdatePolicy.normalizeCoverageMap] using h
  refine ⟨hmain, ?_, ?_, ?_, ?_, ?_⟩
  · intro m hnd
    rw [hmain m hnd, List.map_map]
    rfl
  · intro v
    unfold HospitalUpdatePolicy.toServerEntry
    split
    · rfl
    · split <;> rfl
  · intro v hv
    unfold HospitalUpdatePolicy.toServerEntry
    rw [if_pos hv]
  · intro v hv
    unfold HospitalUpdatePolicy.toServerEntry
    rw [if_neg (by rw [hv]; decide), if_pos hv]
  · intro v h1 h2
    unfold HospitalUpdatePolicy.toServerEntry
    rw [if_neg h1, if_neg h2]

/-- C9 witness: a concrete three-entry map keeps its keys, strips the
copays and rewrites the bogus tag. -/
theorem updatePolicy_normalizeCoverageMap_spec_witness :
    HospitalUpdatePolicy.normalizeCoverageMap
        [("a", ⟨"percent", some 30, some 5⟩), ("b", ⟨"covered", none, some 2⟩),
         ("c", ⟨"bogus", none, none⟩)] =
      [("a", ⟨"percent", some 30, some 5⟩), ("b", ⟨"covered", none, some 2⟩),
       ("c", ⟨"bogus", none, none⟩)].map
        (fun kv => (kv.1, HospitalUpdatePolicy.toServerEntry kv.2)) :=
  updatePolicy_normalizeCoverageMap_spec.1
    [("a", ⟨"percent", some 30, some 5⟩), ("b", ⟨"covered", none, some 2⟩),
     ("c", ⟨"bogus", none, none⟩)] (by decide)
